import Mathlib

noncomputable section

/-!
Shallow embedding of the `probability` statistical-distribution library
(Rust) over real numbers: the Beta distribution module (`src/dist/beta.rs`),
the Exponential distribution module (`src/distributions/exponential.rs`),
and the shared `Distribution` trait (`src/distribution/mod.rs`).

Modelling conventions:
* `f64` values are idealized as real numbers `ℝ`.  Where the code's
  behaviour at IEEE special values (infinity) is the point of a claim,
  a small explicit IEEE-style codomain `F64` is used instead.
* The special-function provider (the external `sfunc` crate: `ln_beta`,
  `inc_beta`, `inv_inc_beta`) is an external collaborator; it is embedded
  as a record of opaque-to-the-component numerical functions `SFunc`
  passed explicitly to the Beta operations, exactly as the Rust code
  calls through the crate boundary.
* `debug_assert!` failures are modelled as `Option.none` (the fail-fast
  signalling of a precondition violation).
-/

/-- Modelled from the spec: the Gamma-variate generator (the repository's
`gamma` module is declared in `src/distribution/mod.rs` but its code is not
under `src/`; the Beta module constructs `Gamma::new(alpha, 1.0)` and
`Gamma::new(beta, 1.0)`).  Per the spec, constructing a distribution with a
non-positive shape parameter signals an invalid-parameter condition
(a fail-fast assertion in the reference implementation), so `Gamma.new`
returns `none` when `shape ≤ 0`. -/
structure Gamma where
  shape : ℝ
  scale : ℝ

/-- Modelled from the spec: the Gamma generator constructor fails (signals
an invalid-parameter condition) when the shape parameter is not positive. -/
def Gamma.new (shape scale : ℝ) : Option Gamma :=
  if 0 < shape then some ⟨shape, scale⟩ else none

/-- The special-function provider (external collaborator, the `sfunc`
crate): `ln_beta(a, b)`, the regularized incomplete beta function
`inc_beta(x, a, b, ln_beta)`, and its inverse
`inv_inc_beta(p, a, b, ln_beta)`. -/
structure SFunc where
  ln_beta : ℝ → ℝ → ℝ
  inc_beta : ℝ → ℝ → ℝ → ℝ → ℝ
  inv_inc_beta : ℝ → ℝ → ℝ → ℝ → ℝ

/-- A beta distribution (`pub struct Beta` in `src/dist/beta.rs`): shape
parameters `alpha`, `beta`, support `[a, b]`, and the two cached Gamma
generators built at construction. -/
structure Beta where
  alpha : ℝ
  beta : ℝ
  a : ℝ
  b : ℝ
  gamma_alpha : Gamma
  gamma_beta : Gamma

/-- `Beta::new(alpha, beta, a, b)`: the body performs no check of its own;
it builds the record, constructing `Gamma::new(alpha, 1.0)` and
`Gamma::new(beta, 1.0)` for the cached generators.  Construction fails
exactly when one of the Gamma constructions fails. -/
def Beta.new (alpha beta a b : ℝ) : Option Beta :=
  match Gamma.new alpha 1.0, Gamma.new beta 1.0 with
  | some ga, some gb =>
      some { alpha := alpha, beta := beta, a := a, b := b,
             gamma_alpha := ga, gamma_beta := gb }
  | _, _ => none

/-- `Beta::cdf(x)` from `src/dist/beta.rs`:
`inc_beta((x - a) / (b - a), alpha, beta, ln_beta(alpha, beta))`. -/
def Beta.cdf (sf : SFunc) (d : Beta) (x : ℝ) : ℝ :=
  sf.inc_beta ((x - d.a) / (d.b - d.a)) d.alpha d.beta
    (sf.ln_beta d.alpha d.beta)

/-- `Beta::inv_cdf(p)` from `src/dist/beta.rs`:
`a + (b - a) * inv_inc_beta(p, alpha, beta, ln_beta(alpha, beta))`.
Note the body performs no domain check on `p`. -/
def Beta.inv_cdf (sf : SFunc) (d : Beta) (p : ℝ) : ℝ :=
  d.a + (d.b - d.a) * sf.inv_inc_beta p d.alpha d.beta
    (sf.ln_beta d.alpha d.beta)

/-- The random source, at the granularity the sampling claim is stated at:
a stream of raw 64-bit draws together with the position of the next unread
one.  Each Gamma draw consumes one stream element. -/
structure Source where
  stream : ℕ → ℝ
  pos : ℕ

/-- Modelled from the spec: one call of the Gamma-variate generator
(`Gamma::ind_sample(rng)`, repository `gamma` module, code not under
`src/`) consumes the next raw value of the caller's random source and
transforms it into a Gamma variate.  The numerical transformation `T` is
abstract (it depends on the generator's cached shape); only the source
consumption order matters to the claims. -/
def Gamma.ind_sample (T : Gamma → ℝ → ℝ) (g : Gamma) (s : Source) :
    ℝ × Source :=
  (T g (s.stream s.pos), ⟨s.stream, s.pos + 1⟩)

/-- `Beta::sample(rng)` from `src/dist/beta.rs`:
`let x = gamma_alpha.ind_sample(rng); let y = gamma_beta.ind_sample(rng);
a + (b - a) * x / (x + y)`. -/
def Beta.sample (T : Gamma → ℝ → ℝ) (d : Beta) (s : Source) : ℝ × Source :=
  let xs := Gamma.ind_sample T d.gamma_alpha s
  let ys := Gamma.ind_sample T d.gamma_beta xs.2
  (d.a + (d.b - d.a) * xs.1 / (xs.1 + ys.1), ys.2)

/-- The `Distribution` trait's default implementation of `sd`
(`src/distribution/mod.rs`): `self.var().sqrt()`. -/
def Distribution.sd_default (var : ℝ) : ℝ :=
  Real.sqrt var

/-- An exponential distribution (`src/distributions/exponential.rs`) with
rate `lambda`.  The cached `rand::distributions::Exp` sampler is an
external collaborator and carries no state of its own here. -/
structure Exponential where
  lambda : ℝ

/-- `Exponential::new(lambda)`: `debug_assert!(lambda > 0.0)`, then the
record is built.  The assertion failure is modelled as `none`. -/
def Exponential.new (lambda : ℝ) : Option Exponential :=
  if 0 < lambda then some ⟨lambda⟩ else none

/-- `Exponential::mean()`: `lambda.recip()`. -/
def Exponential.mean (d : Exponential) : ℝ :=
  d.lambda⁻¹

/-- `Exponential::var()`: `lambda.powi(-2)`. -/
def Exponential.var (d : Exponential) : ℝ :=
  d.lambda ^ (-2 : ℤ)

/-- `Exponential::sd()` (the overriding implementation): `lambda.recip()`. -/
def Exponential.sd (d : Exponential) : ℝ :=
  d.lambda⁻¹

/-- `Exponential::pdf(x)`: `if x < 0.0 { 0.0 } else
{ lambda * (-lambda * x).exp() }`. -/
def Exponential.pdf (d : Exponential) (x : ℝ) : ℝ :=
  if x < 0 then 0 else d.lambda * Real.exp (-d.lambda * x)

/-- The float intrinsic `exp_m1(y)` = `e^y - 1`, exact over ℝ. -/
def exp_m1 (y : ℝ) : ℝ :=
  Real.exp y - 1

/-- `Exponential::cdf(x)`: `if x <= 0.0 { 0.0 } else
{ -(-lambda * x).exp_m1() }`. -/
def Exponential.cdf (d : Exponential) (x : ℝ) : ℝ :=
  if x ≤ 0 then 0 else -(exp_m1 (-d.lambda * x))

/-- IEEE-style 64-bit float values as far as the claims need them: a
finite real, the two infinities, or NaN. -/
inductive F64 where
  | fin (x : ℝ) : F64
  | inf : F64
  | neginf : F64
  | nan : F64
deriving DecidableEq

/-- The float intrinsic `ln_1p(y)` = `ln(1 + y)` with IEEE semantics:
`ln_1p(-1) = -∞`, `ln_1p(y) = NaN` for `y < -1`, finite otherwise. -/
def ln_1p (y : ℝ) : F64 :=
  if y = -1 then F64.neginf
  else if y < -1 then F64.nan
  else F64.fin (Real.log (1 + y))

/-- IEEE negation on `F64`. -/
def F64.neg : F64 → F64
  | F64.fin x => F64.fin (-x)
  | F64.inf => F64.neginf
  | F64.neginf => F64.inf
  | F64.nan => F64.nan

/-- IEEE division of an `F64` by a finite real divisor (sign of a zero
divisor taken as positive). -/
def F64.divR : F64 → ℝ → F64
  | F64.nan, _ => F64.nan
  | F64.inf, c => if 0 ≤ c then F64.inf else F64.neginf
  | F64.neginf, c => if 0 ≤ c then F64.neginf else F64.inf
  | F64.fin x, c =>
      if c = 0 then
        if x = 0 then F64.nan
        else if 0 < x then F64.inf else F64.neginf
      else F64.fin (x / c)

/-- `Exponential::inv_cdf(p)`:
`debug_assert!(0.0 <= p && p <= 1.0)`, then `-(-p).ln_1p() / lambda`.
The assertion failure is modelled as `none`; the numerical expression is
evaluated in the IEEE-style codomain `F64` because at `p = 1` it leaves
the finite range. -/
def Exponential.inv_cdf (d : Exponential) (p : ℝ) : Option F64 :=
  if 0 ≤ p ∧ p ≤ 1 then some (F64.divR (F64.neg (ln_1p (-p))) d.lambda)
  else none

/-- The spec's description of `Beta::cdf`: rescale `x` into standard-Beta
coordinates via `t = (x - a) / (b - a)`, then evaluate the regularized
incomplete beta function at `t` with shape parameters `(alpha, beta)` via
the provider's `incomplete_beta` with a precomputed `ln_beta(alpha, beta)`. -/
def Beta.cdf_spec (sf : SFunc) (d : Beta) (x : ℝ) : ℝ :=
  let t := (x - d.a) / (d.b - d.a)
  sf.inc_beta t d.alpha d.beta (sf.ln_beta d.alpha d.beta)

/-- A concrete stand-in special-function provider used only to witness
theorems: `inc_beta` and `inv_inc_beta` both clamp to `[0, 1]` and are the
identity inside it (as the true functions are for `alpha = beta = 1`). -/
def sfClamp : SFunc where
  ln_beta := fun _ _ => 0
  inc_beta := fun t _ _ _ => if t < 0 then 0 else if 1 < t then 1 else t
  inv_inc_beta := fun p _ _ _ => if p < 0 then 0 else if 1 < p then 1 else p

/-- A concrete Beta instance used only in witnesses: the value
`Beta::new(2.0, 3.0, 0.0, 1.0)` constructs. -/
def beta2301 : Beta :=
  { alpha := 2, beta := 3, a := 0, b := 1,
    gamma_alpha := ⟨2, 1.0⟩, gamma_beta := ⟨3, 1.0⟩ }

/-- C1: constructing a Beta distribution with `alpha ≤ 0` or `beta ≤ 0`
fails at construction time (an invalid-parameter condition) rather than
returning a usable Beta instance. -/
theorem beta_new_rejects_nonpositive_shape (alpha beta a b : ℝ)
    (h : alpha ≤ 0 ∨ beta ≤ 0) : Beta.new alpha beta a b = none := by
  rcases h with h | h
  · simp [Beta.new, Gamma.new, not_lt.mpr h]
  · simp only [Beta.new, Gamma.new, not_lt.mpr h, if_neg (not_lt.mpr h)]
    rcases lt_or_le 0 alpha with h' | h' <;> simp [h']

/-- Witness for C1: `Beta::new(-1.0, 2.0, 0.0, 1.0)` fails. -/
theorem beta_new_rejects_nonpositive_shape_witness :
    Beta.new (-1.0) 2.0 0.0 1.0 = none :=
  beta_new_rejects_nonpositive_shape (-1.0) 2.0 0.0 1.0 (Or.inl (by norm_num))

/-- C6: for every Beta distribution and every input `x`, `cdf(x)` is the
regularized incomplete beta function evaluated at the rescaled coordinate
`t = (x - a) / (b - a)` with shape parameters `(alpha, beta)`, computed
via the provider's `incomplete_beta` with a precomputed
`ln_beta(alpha, beta)`. -/
theorem beta_cdf_is_rescaled_inc_beta (sf : SFunc) (d : Beta) (x : ℝ) :
    Beta.cdf sf d x = Beta.cdf_spec sf d x :=
  rfl

/-- C2, counterexample: `Beta::inv_cdf` does not fail for `p` outside
`[0, 1]` — with the clamping stand-in provider and the Beta instance of
`Beta::new(2.0, 3.0, 0.0, 1.0)`, the call `inv_cdf(1.2)` returns the
numeric result `1`. -/
theorem beta_inv_cdf_no_domain_check_cex :
    Beta.inv_cdf sfClamp beta2301 (6 / 5) = 1 := by
  norm_num [Beta.inv_cdf, sfClamp, beta2301]

/-- C2, amended: the out-of-domain rejection of `inv_cdf` exists only in
`Exponential` (a debug assertion failing for `p` outside `[0, 1]`); the
`Beta` implementation performs no domain check and returns the numeric
affine rescaling of the provider's `inv_inc_beta` output for every `p`. -/
theorem inv_cdf_domain_check_exponential_only :
    (∀ (e : Exponential) (p : ℝ), p < 0 ∨ 1 < p →
      Exponential.inv_cdf e p = none) ∧
    (∀ (sf : SFunc) (d : Beta) (p : ℝ),
      Beta.inv_cdf sf d p =
        d.a + (d.b - d.a) * sf.inv_inc_beta p d.alpha d.beta
          (sf.ln_beta d.alpha d.beta)) := by
  constructor
  · intro e p h
    unfold Exponential.inv_cdf
    rw [if_neg]
    rintro ⟨h0, h1⟩
    rcases h with h | h <;> linarith
  · intro sf d p
    rfl

/-- Witness for C2's amended statement: `Exponential::inv_cdf(1.2)` and
`Exponential::inv_cdf(-0.2)` fail for the rate-2 distribution. -/
theorem inv_cdf_domain_check_exponential_only_witness :
    Exponential.inv_cdf ⟨2⟩ (6 / 5) = none ∧
    Exponential.inv_cdf ⟨2⟩ (-(1 / 5)) = none :=
  ⟨inv_cdf_domain_check_exponential_only.1 ⟨2⟩ (6 / 5) (Or.inr (by norm_num)),
   inv_cdf_domain_check_exponential_only.1 ⟨2⟩ (-(1 / 5))
     (Or.inl (by norm_num))⟩

/-- C3: for a Beta distribution with `alpha > 0`, `beta > 0`, `a < b`,
assuming the provider is exact at the standard-Beta endpoints
(`inc_beta` maps 0 to 0 and 1 to 1, `inv_inc_beta` maps 0 to 0 and
1 to 1), the boundary values are exact: `cdf(a) = 0`, `cdf(b) = 1`,
`inv_cdf(0) = a`, `inv_cdf(1) = b`. -/
theorem beta_boundary_exactness (sf : SFunc) (d : Beta)
    (halpha : 0 < d.alpha) (hbeta : 0 < d.beta) (hab : d.a < d.b)
    (h0 : sf.inc_beta 0 d.alpha d.beta (sf.ln_beta d.alpha d.beta) = 0)
    (h1 : sf.inc_beta 1 d.alpha d.beta (sf.ln_beta d.alpha d.beta) = 1)
    (hq0 : sf.inv_inc_beta 0 d.alpha d.beta (sf.ln_beta d.alpha d.beta) = 0)
    (hq1 : sf.inv_inc_beta 1 d.alpha d.beta (sf.ln_beta d.alpha d.beta) = 1) :
    Beta.cdf sf d d.a = 0 ∧ Beta.cdf sf d d.b = 1 ∧
    Beta.inv_cdf sf d 0 = d.a ∧ Beta.inv_cdf sf d 1 = d.b := by
  have hne : d.b - d.a ≠ 0 := sub_ne_zero.mpr (ne_of_gt hab)
  refine ⟨?_, ?_, ?_, ?_⟩
  · unfold Beta.cdf
    rw [sub_self, zero_div, h0]
  · unfold Beta.cdf
    rw [div_self hne, h1]
  · unfold Beta.inv_cdf
    rw [hq0]
    ring
  · unfold Beta.inv_cdf
    rw [hq1]
    ring

/-- Witness for C3 at `Beta::new(2.0, 3.0, 0.0, 1.0)` with the clamping
stand-in provider. -/
theorem beta_boundary_exactness_witness :
    Beta.cdf sfClamp beta2301 0 = 0 ∧ Beta.cdf sfClamp beta2301 1 = 1 ∧
    Beta.inv_cdf sfClamp beta2301 0 = 0 ∧
    Beta.inv_cdf sfClamp beta2301 1 = 1 := by
  have h := beta_boundary_exactness sfClamp beta2301
    (by norm_num [beta2301]) (by norm_num [beta2301]) (by norm_num [beta2301])
    (by norm_num [sfClamp]) (by norm_num [sfClamp])
    (by norm_num [sfClamp]) (by norm_num [sfClamp])
  simpa [beta2301] using h

/-- C7: for a Beta distribution with `alpha > 0`, `beta > 0`, `a < b`,
given that the provider's `inc_beta` saturates outside the standard-Beta
domain (0 below 0, 1 above 1, as the composition with the standard-Beta
cdf domain dictates), `cdf(x) = 0` for every `x < a` and `cdf(x) = 1` for
every `x > b`. -/
theorem beta_cdf_saturates_outside_support (sf : SFunc) (d : Beta)
    (halpha : 0 < d.alpha) (hbeta : 0 < d.beta) (hab : d.a < d.b)
    (hlo : ∀ t : ℝ, t < 0 →
      sf.inc_beta t d.alpha d.beta (sf.ln_beta d.alpha d.beta) = 0)
    (hhi : ∀ t : ℝ, 1 < t →
      sf.inc_beta t d.alpha d.beta (sf.ln_beta d.alpha d.beta) = 1) :
    (∀ x, x < d.a → Beta.cdf sf d x = 0) ∧
    (∀ x, d.b < x → Beta.cdf sf d x = 1) := by
  have hba : 0 < d.b - d.a := by linarith
  constructor
  · intro x hx
    exact hlo _ (div_neg_of_neg_of_pos (by linarith) hba)
  · intro x hx
    apply hhi
    rw [lt_div_iff₀ hba]
    linarith

/-- Witness for C7 at `Beta::new(2.0, 3.0, 0.0, 1.0)` with the clamping
stand-in provider, at the points `x = -1 < a` and `x = 2 > b`. -/
theorem beta_cdf_saturates_outside_support_witness :
    Beta.cdf sfClamp beta2301 (-1) = 0 ∧ Beta.cdf sfClamp beta2301 2 = 1 := by
  have h := beta_cdf_saturates_outside_support sfClamp beta2301
    (by norm_num [beta2301]) (by norm_num [beta2301]) (by norm_num [beta2301])
    (fun t ht => by simp [sfClamp, ht])
    (fun t ht => by simp [sfClamp, ht, not_lt.mpr (le_of_lt (by linarith : (0:ℝ) < t))])
  exact ⟨h.1 (-1) (by norm_num [beta2301]), h.2 2 (by norm_num [beta2301])⟩

/-- The IEEE double-precision machine epsilon, `2 ^ (-52)`. -/
def machineEpsilon : ℝ :=
  (2 : ℝ) ^ (-52 : ℤ)

/-- C4: for a Beta distribution with `alpha > 0`, `beta > 0`, `a < b` and
`x ∈ [a, b]`, given that the provider's round trip on the standard
coordinate `t = (x - a) / (b - a)` is accurate within
`sqrt(machine_epsilon) / (b - a)` (the spec's provider accuracy contract,
expressed in the coordinate the affine rescaling stretches by `b - a`),
`inv_cdf(cdf(x))` is within `sqrt(machine_epsilon)` of `x`. -/
theorem beta_inverse_consistency (sf : SFunc) (d : Beta) (x : ℝ)
    (halpha : 0 < d.alpha) (hbeta : 0 < d.beta) (hab : d.a < d.b)
    (hx : x ∈ Set.Icc d.a d.b)
    (hrt : |sf.inv_inc_beta
        (sf.inc_beta ((x - d.a) / (d.b - d.a)) d.alpha d.beta
          (sf.ln_beta d.alpha d.beta))
        d.alpha d.beta (sf.ln_beta d.alpha d.beta) -
        (x - d.a) / (d.b - d.a)| ≤
      Real.sqrt machineEpsilon / (d.b - d.a)) :
    |Beta.inv_cdf sf d (Beta.cdf sf d x) - x| ≤ Real.sqrt machineEpsilon := by
  have hba : 0 < d.b - d.a := by linarith
  have hne : d.b - d.a ≠ 0 := ne_of_gt hba
  set L := sf.ln_beta d.alpha d.beta with hL
  set t : ℝ := (x - d.a) / (d.b - d.a) with hT
  set q : ℝ := sf.inv_inc_beta (sf.inc_beta t d.alpha d.beta L) d.alpha d.beta L
    with hQ
  have ht : (d.b - d.a) * t = x - d.a := by
    rw [hT]
    field_simp
  have key : Beta.inv_cdf sf d (Beta.cdf sf d x) - x = (d.b - d.a) * (q - t) := by
    unfold Beta.inv_cdf Beta.cdf
    rw [← hL, ← hT, ← hQ]
    nlinarith [ht]
  calc |Beta.inv_cdf sf d (Beta.cdf sf d x) - x|
      = (d.b - d.a) * |q - t| := by rw [key, abs_mul, abs_of_pos hba]
    _ ≤ (d.b - d.a) * (Real.sqrt machineEpsilon / (d.b - d.a)) :=
        mul_le_mul_of_nonneg_left hrt hba.le
    _ = Real.sqrt machineEpsilon := by field_simp

/-- Witness for C4 at `Beta::new(2.0, 3.0, 0.0, 1.0)`, `x = 1/2`, with
the clamping stand-in provider (whose round trip is exact). -/
theorem beta_inverse_consistency_witness :
    |Beta.inv_cdf sfClamp beta2301 (Beta.cdf sfClamp beta2301 (1 / 2)) -
      1 / 2| ≤ Real.sqrt machineEpsilon := by
  apply beta_inverse_consistency sfClamp beta2301 (1 / 2)
    (by norm_num [beta2301]) (by norm_num [beta2301]) (by norm_num [beta2301])
    (by norm_num [beta2301])
  have hv : |sfClamp.inv_inc_beta
      (sfClamp.inc_beta ((1 / 2 - beta2301.a) / (beta2301.b - beta2301.a))
        beta2301.alpha beta2301.beta
        (sfClamp.ln_beta beta2301.alpha beta2301.beta))
      beta2301.alpha beta2301.beta
      (sfClamp.ln_beta beta2301.alpha beta2301.beta) -
      (1 / 2 - beta2301.a) / (beta2301.b - beta2301.a)| = 0 := by
    norm_num [sfClamp, beta2301]
  rw [hv]
  apply div_nonneg (Real.sqrt_nonneg _)
  norm_num [beta2301]

/-- C5: one `Beta::sample` call takes exactly two draws from the caller's
random source, the `Gamma(alpha, 1)` draw strictly before the
`Gamma(beta, 1)` draw (it reads stream position `n`, the other `n + 1`,
and the source is left at `n + 2`), and returns
`a + (b - a) * x / (x + y)`; when both draws are nonnegative and their sum
is not exactly 0 (all values are finite reals here) and the support is
ordered, the returned value lies in `[a, b]`. -/
theorem beta_sample_two_ordered_draws_in_range (T : Gamma → ℝ → ℝ)
    (d : Beta) (f : ℕ → ℝ) (n : ℕ) :
    Beta.sample T d ⟨f, n⟩ =
      (d.a + (d.b - d.a) * T d.gamma_alpha (f n) /
        (T d.gamma_alpha (f n) + T d.gamma_beta (f (n + 1))),
       ⟨f, n + 2⟩) ∧
    (0 ≤ T d.gamma_alpha (f n) → 0 ≤ T d.gamma_beta (f (n + 1)) →
      T d.gamma_alpha (f n) + T d.gamma_beta (f (n + 1)) ≠ 0 →
      d.a ≤ d.b →
      (Beta.sample T d ⟨f, n⟩).1 ∈ Set.Icc d.a d.b) := by
  constructor
  · rfl
  · intro hx hy hxy hab
    set x := T d.gamma_alpha (f n) with hX
    set y := T d.gamma_beta (f (n + 1)) with hY
    have hsum : 0 < x + y := lt_of_le_of_ne (by linarith) (Ne.symm hxy)
    have hfst : (Beta.sample T d ⟨f, n⟩).1 =
        d.a + (d.b - d.a) * (x / (x + y)) := by
      show d.a + (d.b - d.a) * x / (x + y) = _
      ring
    have ht0 : 0 ≤ x / (x + y) := div_nonneg hx hsum.le
    have ht1 : x / (x + y) ≤ 1 := (div_le_one hsum).mpr (by linarith)
    rw [hfst]
    constructor
    · nlinarith
    · nlinarith

/-- Witness for C5: with the transformation `shape * u`, the stream
`1, 2, 3, …` read from position 0, and `Beta::new(2.0, 3.0, 0.0, 1.0)`,
the sample is `2 / 8 = 1/4` and lies in `[0, 1]`. -/
theorem beta_sample_two_ordered_draws_in_range_witness :
    (Beta.sample (fun g u => g.shape * u) beta2301
      ⟨fun k => (k : ℝ) + 1, 0⟩).1 ∈ Set.Icc beta2301.a beta2301.b := by
  apply (beta_sample_two_ordered_draws_in_range (fun g u => g.shape * u)
    beta2301 (fun k => (k : ℝ) + 1) 0).2
  · norm_num [beta2301]
  · norm_num [beta2301]
  · norm_num [beta2301]
  · norm_num [beta2301]

/-- C8: the overriding `Exponential::sd` (`lambda.recip()`) agrees with
the `Distribution` trait's default derivation `var().sqrt()` whenever
`lambda > 0`. -/
theorem exponential_sd_matches_default (e : Exponential)
    (h : 0 < e.lambda) :
    Exponential.sd e = Distribution.sd_default (Exponential.var e) := by
  have h2 : Exponential.var e = (e.lambda⁻¹) ^ 2 := by
    unfold Exponential.var
    rw [zpow_neg, ← inv_zpow]
    norm_cast
  unfold Exponential.sd Distribution.sd_default
  rw [h2, Real.sqrt_sq (inv_nonneg.mpr h.le)]

/-- Witness for C8 at `lambda = 2`. -/
theorem exponential_sd_matches_default_witness :
    Exponential.sd ⟨2⟩ = Distribution.sd_default (Exponential.var ⟨2⟩) :=
  exponential_sd_matches_default ⟨2⟩ (by norm_num)

/-- C9: for every Exponential distribution with `lambda > 0`, the domain
check of `inv_cdf` accepts `p = 1` and the expression
`-(-1.0).ln_1p() / lambda` evaluates to positive infinity. -/
theorem exponential_inv_cdf_one_is_infinity (e : Exponential)
    (h : 0 < e.lambda) :
    Exponential.inv_cdf e 1 = some F64.inf := by
  unfold Exponential.inv_cdf
  rw [if_pos (by norm_num : (0 : ℝ) ≤ 1 ∧ (1 : ℝ) ≤ 1)]
  simp [ln_1p, F64.neg, F64.divR, h.le]

/-- Witness for C9 at `lambda = 2`. -/
theorem exponential_inv_cdf_one_is_infinity_witness :
    Exponential.inv_cdf ⟨2⟩ 1 = some F64.inf :=
  exponential_inv_cdf_one_is_infinity ⟨2⟩ (by norm_num)

/-- C10: for every Exponential distribution with `lambda > 0`,
`pdf(0) = lambda` (strictly positive, via the strict branch `x < 0`)
while `cdf(0) = 0` (via the non-strict branch `x <= 0`): the two
operations treat the boundary point 0 asymmetrically. -/
theorem exponential_pdf_cdf_boundary_asymmetry (e : Exponential)
    (h : 0 < e.lambda) :
    Exponential.pdf e 0 = e.lambda ∧ 0 < Exponential.pdf e 0 ∧
    Exponential.cdf e 0 = 0 := by
  have hp : Exponential.pdf e 0 = e.lambda := by
    simp [Exponential.pdf]
  exact ⟨hp, by rw [hp]; exact h, by simp [Exponential.cdf]⟩

/-- Witness for C10 at `lambda = 2`. -/
theorem exponential_pdf_cdf_boundary_asymmetry_witness :
    Exponential.pdf ⟨2⟩ 0 = (2 : ℝ) ∧ 0 < Exponential.pdf ⟨2⟩ 0 ∧
    Exponential.cdf ⟨2⟩ 0 = 0 :=
  exponential_pdf_cdf_boundary_asymmetry ⟨2⟩ (by norm_num)
